import Mathlib

/-!
Verification of the image-input normalization and tool layer of
`src/tools/mcp_image_server.py`.

The Python module is embedded shallowly:

* External libraries (the filesystem, the PIL codec, PIL's quantizer,
  OpenCV's QR detector, pytesseract) are black boxes per the spec; they are
  modelled as oracle functions collected in an `Env` record.  A PIL image is
  modelled by its observable fields (width, height, mode, source format);
  pixel buffers are opaque, so an encoded payload is modelled by the raster
  it encodes.
* Python's `base64.b64decode` / `base64.b64encode`, `str.split(",", 1)` and
  `str.startswith` are modelled concretely, as are the Python-level
  exceptions (`ValueError`, `binascii.Error`, PIL's decode failures).
* Pillow's `Image.thumbnail` size computation is modelled concretely with
  exact rational arithmetic in place of floats.

Strings at the tool boundary are represented as `List Char` so that
character-level operations (prefix test, split on comma, base64 filtering)
stay faithful to the Python string operations.
-/

namespace MCPImageServer

/-- The Python exception kinds the module can surface to the caller.
`valueError` models `ValueError` (failed tuple unpacking, non-ASCII input to
`b64decode`), `binasciiError` models `binascii.Error` (malformed base64),
`imageError` models PIL's failure to open/identify an image, and
`zeroDivisionError` models `ZeroDivisionError` inside Pillow's thumbnail
arithmetic.  The spec groups `binasciiError` and `imageError` under the name
`ImageDecodeError`. -/
inductive PyErr where
  | valueError
  | binasciiError
  | imageError
  | zeroDivisionError
  deriving DecidableEq

/-- The spec's `ImageDecodeError` class: the reference is not valid base64,
or the decoded bytes are not a supported image container. -/
def PyErr.isImageDecodeError : PyErr → Bool
  | .binasciiError => true
  | .imageError => true
  | _ => false

/-- Observable state of a PIL image: width, height, color mode and the
optional source-format tag (`im.format`, `none` models Python's `None`). -/
structure PILRaster where
  width : Nat
  height : Nat
  mode : String
  format : Option String
  deriving DecidableEq

/-- `im.convert(mode)` / `ImageOps.grayscale`: a fresh image with the target
mode; derived images carry no source-format tag. -/
def PILRaster.convert (im : PILRaster) (mode : String) : PILRaster :=
  { im with mode := mode, format := none }

/-- Result of `im.quantize(...)` as observed by the code: `getpalette()`
(a flat RGB list or `None`) and `getcolors()` (a `(count, palette-index)`
list or `None`). -/
structure QuantizedImage where
  getpalette : Option (List Nat)
  getcolors : Option (List (Nat × Nat))

/-- The quantization method constant passed by the code
(`PILImage.Quantize.MEDIANCUT` and its alternatives). -/
inductive QuantizeMethod where
  | mediancut
  | maxcoverage
  | fastoctree
  deriving DecidableEq

/-- `cv2.QRCodeDetector()`: `detectAndDecode` yields a single decoded string
(empty when nothing decodes); `detectAndDecodeMulti` exists only on newer
OpenCV builds (`hasattr` check), hence the `Option`. -/
structure CV2QRCodeDetector where
  detectAndDecode : PILRaster → String
  detectAndDecodeMulti : Option (PILRaster → List String)

/-- The `pytesseract` module, when importable. -/
structure Pytesseract where
  image_to_string : PILRaster → String → String

/-- The external world the module runs against: the filesystem probe
`os.path.exists`, PIL's two entry points (`Image.open` on a path, `Image.open`
on a byte buffer — `none` models a raised exception), PIL's quantizer, the
optional `cv2` module and the optional `pytesseract` module (with the
exception text produced when its import fails). -/
structure Env where
  pathExists : List Char → Bool
  openPath : List Char → Option PILRaster
  openBytes : List Nat → Option PILRaster
  quantize : PILRaster → Nat → QuantizeMethod → QuantizedImage
  cv2 : Option CV2QRCodeDetector
  pytesseract : Option Pytesseract
  pytesseractErr : String

/-! ### Python `base64` -/

/-- The standard base64 alphabet, in value order. -/
def b64Chars : List Char :=
  ['A','B','C','D','E','F','G','H','I','J','K','L','M',
   'N','O','P','Q','R','S','T','U','V','W','X','Y','Z',
   'a','b','c','d','e','f','g','h','i','j','k','l','m',
   'n','o','p','q','r','s','t','u','v','w','x','y','z',
   '0','1','2','3','4','5','6','7','8','9','+','/']

/-- The 6-bit value of a base64 alphabet character, `none` otherwise. -/
def b64Val (c : Char) : Option Nat :=
  b64Chars.findIdx? (fun x => x == c)

/-- The alphabet character for a 6-bit value. -/
def b64EncChar (v : Nat) : Char :=
  b64Chars.getD v 'A'

/-- `base64.b64encode` on a byte list (bytes are `< 256`), producing the
encoded text as characters, three input bytes per four output characters,
`=`-padded. -/
def pyB64Encode : List Nat → List Char
  | [] => []
  | [b1] =>
    [b64EncChar (b1 / 4), b64EncChar (b1 % 4 * 16), '=', '=']
  | [b1, b2] =>
    [b64EncChar (b1 / 4), b64EncChar (b1 % 4 * 16 + b2 / 16),
     b64EncChar (b2 % 16 * 4), '=']
  | b1 :: b2 :: b3 :: rest =>
    b64EncChar (b1 / 4) :: b64EncChar (b1 % 4 * 16 + b2 / 16) ::
    b64EncChar (b2 % 16 * 4 + b3 / 64) :: b64EncChar (b3 % 64) ::
    pyB64Encode rest

/-- Characters `binascii.a2b_base64` does not silently discard: the alphabet
and the padding character. -/
def keepB64 (c : Char) : Bool :=
  (b64Val c).isSome || c == '='

/-- Quad-wise decoding of an already-filtered character list, as
`binascii.a2b_base64` does in its default lenient mode: four characters give
three bytes, `xy==` gives one, `xyz=` gives two; a leftover of one to three
characters, or misplaced padding, raises `binascii.Error` (incorrect
padding). -/
def b64DecodeQuads : List Char → Except PyErr (List Nat)
  | [] => .ok []
  | a :: b :: c :: d :: rest =>
    match b64Val a, b64Val b with
    | some va, some vb =>
      if c == '=' then
        if d == '=' then
          (b64DecodeQuads rest).map (fun bs => (va * 4 + vb / 16) :: bs)
        else .error .binasciiError
      else
        match b64Val c with
        | some vc =>
          if d == '=' then
            (b64DecodeQuads rest).map (fun bs =>
              (va * 4 + vb / 16) :: (vb % 16 * 16 + vc / 4) :: bs)
          else
            match b64Val d with
            | some vd =>
              (b64DecodeQuads rest).map (fun bs =>
                (va * 4 + vb / 16) :: (vb % 16 * 16 + vc / 4) ::
                (vc % 4 * 64 + vd) :: bs)
            | none => .error .binasciiError
        | none => .error .binasciiError
    | _, _ => .error .binasciiError
  | _ => .error .binasciiError

/-- `base64.b64decode` on a Python `str`: the string must be pure ASCII
(otherwise `ValueError`), characters outside the alphabet are discarded, and
the rest is decoded quad-wise. -/
def pyB64Decode (s : List Char) : Except PyErr (List Nat) :=
  if s.all (fun c => c.toNat < 128) then b64DecodeQuads (s.filter keepB64)
  else .error .valueError

/-! ### Python string helpers -/

/-- `s.split(",", 1)` restricted to what the code consumes: `some (head,
tail)` around the first comma, `none` when the string has no comma (in which
case the code's two-target unpacking raises `ValueError`). -/
def splitFirstComma : List Char → Option (List Char × List Char)
  | [] => none
  | c :: cs =>
    if c == ',' then some ([], cs)
    else (splitFirstComma cs).map (fun p => (c :: p.1, p.2))

/-- The literal prefix `"data:"` tested by `startswith`. -/
def dataColon : List Char := ['d', 'a', 't', 'a', ':']

/-! ### The image resolver (`_decode_image_to_pil`, lines 32-44) -/

/-- `_decode_image_to_pil`: if the reference names an existing filesystem
entry it is opened as an image file; otherwise a `data:`-prefixed reference
is split on its first comma and the part after the comma is the base64
payload, and any other reference is itself the base64 payload; the payload
is base64-decoded and the bytes are opened as an image. -/
def _decode_image_to_pil (env : Env) (ref : List Char) : Except PyErr PILRaster :=
  if env.pathExists ref then
    match env.openPath ref with
    | some im => .ok im
    | none => .error .imageError
  else
    let payload : Except PyErr (List Char) :=
      if dataColon.isPrefixOf ref then
        match splitFirstComma ref with
        | some p => .ok p.2
        | none => .error .valueError
      else .ok ref
    match payload with
    | .error e => .error e
    | .ok b64 =>
      match pyB64Decode b64 with
      | .error e => .error e
      | .ok data =>
        match env.openBytes data with
        | some im => .ok im
        | none => .error .imageError

/-- The file-path interpretation of a reference, in isolation. -/
def interpretFile (env : Env) (ref : List Char) : Except PyErr PILRaster :=
  match env.openPath ref with
  | some im => .ok im
  | none => .error .imageError

/-- The shared tail of the two base64 interpretations: decode the payload,
then open the bytes as an image container. -/
def decodePayload (env : Env) (payload : List Char) : Except PyErr PILRaster :=
  match pyB64Decode payload with
  | .error e => .error e
  | .ok data =>
    match env.openBytes data with
    | some im => .ok im
    | none => .error .imageError

/-- The data-URI interpretation of a reference, in isolation: split on the
first comma, discard the header, decode the rest. -/
def interpretDataURI (env : Env) (ref : List Char) : Except PyErr PILRaster :=
  match splitFirstComma ref with
  | some p => decodePayload env p.2
  | none => .error .valueError

/-- The raw-base64 interpretation of a reference, in isolation. -/
def interpretRawBase64 (env : Env) (ref : List Char) : Except PyErr PILRaster :=
  decodePayload env ref

/-! ### The tools (lines 47-130) -/

/-- Result record of `image_info`. -/
structure InfoResult where
  width : Nat
  height : Nat
  mode : String
  format : String
  deriving DecidableEq

/-- Python's `a or b` for an optional string `a`: `None` and the empty
string are falsy. -/
def pyOrElse (a : Option String) (b : String) : String :=
  match a with
  | none => b
  | some s => if s == "" then b else s

/-- `image_info` (lines 47-55). -/
def image_info (env : Env) (image : List Char) : Except PyErr InfoResult :=
  match _decode_image_to_pil env image with
  | .error e => .error e
  | .ok im => .ok ⟨im.width, im.height, im.mode, pyOrElse im.format ("(unknown)")⟩

/-- The `mcp.server.fastmcp.Image` payload: the PNG byte buffer is opaque,
so it is modelled by the raster that was saved into it, together with the
declared format tag. -/
structure MCPImage where
  raster : PILRaster
  format : String
  deriving DecidableEq

/-- `grayscale` (lines 58-64): convert to mode `L`, save as PNG. -/
def grayscale (env : Env) (image : List Char) : Except PyErr MCPImage :=
  match _decode_image_to_pil env image with
  | .error e => .error e
  | .ok im => .ok ⟨im.convert ("L"), "png"⟩

/-! ### Pillow `Image.thumbnail` size arithmetic -/

/-- Pillow's `round_aspect(number, key)`:
`max(min(math.floor(number), math.ceil(number), key=key), 1)`.  Python's
two-argument `min` with a key returns the first argument on ties. -/
def roundAspect (number : ℚ) (key : ℤ → ℚ) : Nat :=
  (max (if key ⌊number⌋ ≤ key ⌈number⌉ then ⌊number⌋ else ⌈number⌉) 1).toNat

/-- The size computed by Pillow's `Image.thumbnail((x, y))` for a `w × h`
image (float arithmetic modelled exactly over `ℚ`): no change when the image
already fits the box; otherwise the aspect ratio `w / h` decides which side
is kept and the other is rounded to the nearest integer (clamped to at least
1).  `none` models the `ZeroDivisionError` raised when a divisor is zero. -/
def thumbnailSize (w h x y : Nat) : Option (Nat × Nat) :=
  if w ≤ x ∧ h ≤ y then some (w, h)
  else if h = 0 then none
  else if y = 0 then none
  else
    let aspect : ℚ := (w : ℚ) / (h : ℚ)
    if aspect ≤ (x : ℚ) / (y : ℚ) then
      some (roundAspect ((y : ℚ) * aspect) (fun n => |aspect - (n : ℚ) / (y : ℚ)|), y)
    else if aspect = 0 then none
    else
      some (x, roundAspect ((x : ℚ) / aspect)
        (fun n => if n = 0 then 0 else |aspect - (x : ℚ) / (n : ℚ)|))

/-- `resize` (lines 67-76): copy, `thumbnail((max_w, max_h))`, save as
PNG. -/
def resize (env : Env) (image : List Char) (max_w : Nat) (max_h : Nat) :
    Except PyErr MCPImage :=
  match _decode_image_to_pil env image with
  | .error e => .error e
  | .ok im =>
    match thumbnailSize im.width im.height max_w max_h with
    | none => .error .zeroDivisionError
    | some wh => .ok ⟨{ im with width := wh.1, height := wh.2 }, "png"⟩

/-! ### `dominant_colors` (lines 79-92) -/

/-- The sort key relation behind `sorted(used, key=lambda t: t[0],
reverse=True)`: earlier elements must have a pixel count at least as large as
later ones. -/
def freqGE (a b : Nat × Nat) : Prop := b.1 ≤ a.1

instance : DecidableRel freqGE := fun a b => Nat.decLe b.1 a.1

instance : IsTotal (Nat × Nat) freqGE :=
  ⟨fun a b => (le_total b.1 a.1).imp id id⟩

instance : IsTrans (Nat × Nat) freqGE :=
  ⟨fun _ _ _ hab hbc => le_trans hbc hab⟩

/-- `sorted(used, key=lambda t: t[0], reverse=True)[: k]`: Python's stable
descending sort by count (modelled by the stable insertion sort for
`freqGE`), truncated to the first `k` entries. -/
def topUsed (used : List (Nat × Nat)) (k : Nat) : List (Nat × Nat) :=
  (List.insertionSort freqGE used).take k

/-- One lowercase hex digit: `0`-`9` for values below ten, `a`-`f`
otherwise. -/
def hexDigit (n : Nat) : Char :=
  if n < 10 then Char.ofNat (48 + n) else Char.ofNat (87 + n)

/-- `f"{n:02x}"` for a byte value (PIL palette entries are 8-bit). -/
def hexByte (n : Nat) : List Char :=
  [hexDigit (n / 16), hexDigit (n % 16)]

/-- `f"#{r:02x}{g:02x}{b:02x}"`. -/
def toHexColor (r g b : Nat) : List Char :=
  '#' :: (hexByte r ++ hexByte g ++ hexByte b)

/-- A lowercase hexadecimal digit (the character class `[0-9a-f]`). -/
def isHexColorChar (c : Char) : Bool :=
  (48 ≤ c.toNat && c.toNat ≤ 57) || (97 ≤ c.toNat && c.toNat ≤ 102)

/-- The spec's color pattern `#[0-9a-f]{6}`. -/
def isHexColor : List Char → Bool
  | '#' :: rest => rest.length == 6 && rest.all isHexColorChar
  | _ => false

/-- `palette[idx * 3 : idx * 3 + 3]` followed by the three-target unpacking
`r, g, b = ...`; `none` models the `ValueError` raised when the slice does
not contain exactly three entries. -/
def paletteRGB (palette : List Nat) (idx : Nat) : Option (Nat × Nat × Nat) :=
  match (palette.drop (idx * 3)).take 3 with
  | [r, g, b] => some (r, g, b)
  | _ => none

/-- The loop `for _, idx in top: ... hexes.append(f"#{r:02x}...")`. -/
def hexesOf (palette : List Nat) : List (Nat × Nat) → Except PyErr (List (List Char))
  | [] => .ok []
  | t :: ts =>
    match paletteRGB palette t.2 with
    | none => .error .valueError
    | some rgb =>
      (hexesOf palette ts).map (fun rest => toHexColor rgb.1 rgb.2.1 rgb.2.2 :: rest)

/-- Result record of `dominant_colors`. -/
structure ColorsResult where
  colors : List (List Char)
  deriving DecidableEq

/-- `dominant_colors` (lines 79-92): force RGB, median-cut quantize to
`max(1, int(colors))` colors, then — when both `getcolors()` and
`getpalette()` are truthy — hex-format the top-N used palette entries by
descending pixel count. -/
def dominant_colors (env : Env) (image : List Char) (colors : Int) :
    Except PyErr ColorsResult :=
  match _decode_image_to_pil env image with
  | .error e => .error e
  | .ok im0 =>
    let im := im0.convert ("RGB")
    let k : Nat := (max 1 colors).toNat
    let q := env.quantize im k .mediancut
    match q.getcolors, q.getpalette with
    | some used, some palette =>
      if used ≠ [] ∧ palette ≠ [] then
        match hexesOf palette (topUsed used k) with
        | .error e => .error e
        | .ok hexes => .ok ⟨hexes⟩
      else .ok ⟨[]⟩
    | _, _ => .ok ⟨[]⟩

/-! ### `detect_qr` (lines 95-117) -/

/-- Result record of `detect_qr`. -/
structure QRResult where
  count : Nat
  data : List String
  error : Option String
  deriving DecidableEq

/-- The loop body `if s and s not in datas: datas.append(s)`. -/
def insertUniqueNonempty (acc : List String) (s : String) : List String :=
  if s ≠ "" ∧ s ∉ acc then acc ++ [s] else acc

/-- The merge of the single `detectAndDecode` result with the best-effort
`detectAndDecodeMulti` results: start from the at-most-one direct decode,
then append each multi decode that is non-empty and not already present. -/
def qrMerge (single : String) (multi : List String) : List String :=
  multi.foldl insertUniqueNonempty (if single ≠ "" then [single] else [])

/-- The error string returned when `import cv2` failed. -/
def cv2MissingMsg : String := "OpenCV not available. pip install opencv-python"

/-- `detect_qr` (lines 95-117): without `cv2`, a descriptive zero result;
with it, force RGB, decode once directly, then merge the multi-symbol
decodes when that capability exists. -/
def detect_qr (env : Env) (image : List Char) : Except PyErr QRResult :=
  match env.cv2 with
  | none => .ok ⟨0, [], some cv2MissingMsg⟩
  | some detector =>
    match _decode_image_to_pil env image with
    | .error e => .error e
    | .ok im0 =>
      let im := im0.convert ("RGB")
      let single := detector.detectAndDecode im
      let datas :=
        match detector.detectAndDecodeMulti with
        | some multi => qrMerge single (multi im)
        | none => if single ≠ "" then [single] else []
      .ok ⟨datas.length, datas, none⟩

/-! ### `ocr_text` (lines 120-130) -/

/-- The message returned when `import pytesseract` raises `e`. -/
def pytesseractMissingMsg (e : String) : String :=
  "pytesseract is not installed or Tesseract binary missing: " ++ e ++
    ". Install with `pip install pytesseract` and system Tesseract."

/-- `ocr_text` (lines 120-130): without `pytesseract`, the explanatory
message; with it, convert to mode `L` and run recognition. -/
def ocr_text (env : Env) (image : List Char) (lang : String) : Except PyErr String :=
  match env.pytesseract with
  | none => .ok (pytesseractMissingMsg env.pytesseractErr)
  | some tess =>
    match _decode_image_to_pil env image with
    | .error e => .error e
    | .ok im => .ok (tess.image_to_string (im.convert ("L")) lang)

/-! ### Concrete test fixtures -/

/-- A PNG-tagged RGB raster. -/
def rasterA : PILRaster := ⟨8, 6, "RGB", some ("PNG")⟩

/-- A raster whose source format could not be determined. -/
def rasterB : PILRaster := ⟨4, 4, "L", none⟩

/-- A reference naming an existing file. -/
def picRef : List Char := ['p', 'i', 'c', '.', 'p', 'n', 'g']

/-- The raw base64 reference `"QQ=="` (decoding to the byte `65`). -/
def rawB64Ref : List Char := ['Q', 'Q', '=', '=']

/-- The data-URI reference `"data:,QQ=="`. -/
def uriRef : List Char := ['d', 'a', 't', 'a', ':', ',', 'Q', 'Q', '=', '=']

/-- The reference `"abcde"`: not a path, and invalid base64 (five data
characters leave a one-character remainder, an incorrect-padding error). -/
def badB64Ref : List Char := ['a', 'b', 'c', 'd', 'e']

/-- A `"data:"` reference containing no comma. -/
def dataNoCommaRef : List Char := ['d', 'a', 't', 'a', ':', 'x']

/-- A concrete quantizer palette (two RGB triples). -/
def palC : List Nat := [10, 20, 30, 200, 100, 0]

/-- Concrete `(count, palette-index)` usage data. -/
def usedC : List (Nat × Nat) := [(5, 0), (9, 1)]

/-- A detector decoding `"HELLO"` directly and `["", "HELLO", "WORLD"]`
via the multi-symbol capability. -/
def detC : CV2QRCodeDetector :=
  ⟨fun _ => "HELLO", some (fun _ => ["", "HELLO", "WORLD"])⟩

/-- An environment with every capability present: `pic.png` exists and
decodes to `rasterA`, any byte buffer decodes to `rasterB`. -/
def envFull : Env where
  pathExists := fun r => r == picRef
  openPath := fun _ => some rasterA
  openBytes := fun _ => some rasterB
  quantize := fun _ _ _ => ⟨some palC, some usedC⟩
  cv2 := some detC
  pytesseract := some ⟨fun _ _ => "recognized"⟩
  pytesseractErr := ""

/-- An environment with no filesystem entries, a codec that rejects every
byte buffer, and both optional capabilities missing. -/
def envNoCaps : Env where
  pathExists := fun _ => false
  openPath := fun _ => none
  openBytes := fun _ => none
  quantize := fun _ _ _ => ⟨none, none⟩
  cv2 := none
  pytesseract := none
  pytesseractErr := "No module named pytesseract"

/-! ### Supporting lemmas -/

/-- A comma-free string makes `split(",", 1)` return a single part. -/
theorem splitFirstComma_eq_none_of_not_mem :
    ∀ {l : List Char}, ',' ∉ l → splitFirstComma l = none := by
  intro l hl
  induction l with
  | nil => rfl
  | cons c cs ih =>
    have hc : (c == ',') = false := by
      simp only [List.mem_cons] at hl
      simp only [beq_eq_false_iff_ne]
      exact fun h => hl (Or.inl h.symm)
    have hcs : ',' ∉ cs := fun h => hl (List.mem_cons_of_mem _ h)
    simp [splitFirstComma, hc, ih hcs]

/-! ### C1 -/

/-- C1: the resolver attempts exactly one interpretation, chosen by fixed
priority: an existing filesystem path is opened as an image file; otherwise
a `"data:"`-prefixed reference is treated as a data URI (split on the first
comma, base64 payload after it); otherwise the whole string is treated as
raw base64; the decoded bytes are then opened as an image container. -/
theorem C1_resolver_priority (env : Env) (ref : List Char) :
    (env.pathExists ref = true →
      _decode_image_to_pil env ref = interpretFile env ref) ∧
    (env.pathExists ref = false → dataColon.isPrefixOf ref = true →
      _decode_image_to_pil env ref = interpretDataURI env ref) ∧
    (env.pathExists ref = false → dataColon.isPrefixOf ref = false →
      _decode_image_to_pil env ref = interpretRawBase64 env ref) := by
  refine ⟨fun h => ?_, fun h hp => ?_, fun h hp => ?_⟩
  · simp [_decode_image_to_pil, interpretFile, h]
  · rcases hs : splitFirstComma ref with _ | p <;>
      simp [_decode_image_to_pil, interpretDataURI, decodePayload, h, hp, hs]
  · simp [_decode_image_to_pil, interpretRawBase64, decodePayload, h, hp]

/-- Witness for C1: each of the three priority cases at a concrete
environment and reference. -/
theorem C1_resolver_priority_witness :
    _decode_image_to_pil envFull picRef = interpretFile envFull picRef ∧
    _decode_image_to_pil envFull uriRef = interpretDataURI envFull uriRef ∧
    _decode_image_to_pil envFull rawB64Ref = interpretRawBase64 envFull rawB64Ref :=
  ⟨(C1_resolver_priority envFull picRef).1 rfl,
   (C1_resolver_priority envFull uriRef).2.1 rfl rfl,
   (C1_resolver_priority envFull rawB64Ref).2.2 rfl rfl⟩

/-! ### C10 -/

/-- C10: a reference that is not an existing path, starts with `"data:"`,
and contains no comma makes the resolver raise (the single-element split
cannot be unpacked into header and payload); it does not fall back to raw
base64. -/
theorem C10_data_uri_without_comma (env : Env) (ref : List Char)
    (h : env.pathExists ref = false) (hp : dataColon.isPrefixOf ref = true)
    (hc : ',' ∉ ref) :
    _decode_image_to_pil env ref = .error .valueError := by
  simp [_decode_image_to_pil, h, hp, splitFirstComma_eq_none_of_not_mem hc]

/-- Witness for C10 at the reference `"data:x"`. -/
theorem C10_data_uri_without_comma_witness :
    _decode_image_to_pil envNoCaps dataNoCommaRef = .error .valueError :=
  C10_data_uri_without_comma envNoCaps dataNoCommaRef rfl rfl (by decide)

/-! ### C8 -/

/-- C8: when the resolved image has no source-format tag, `image_info`
reports the literal `"(unknown)"` format together with the actual width,
height and mode. -/
theorem C8_unknown_format (env : Env) (ref : List Char) (im : PILRaster)
    (h : _decode_image_to_pil env ref = .ok im) (hf : im.format = none) :
    image_info env ref = .ok ⟨im.width, im.height, im.mode, "(unknown)"⟩ := by
  simp [image_info, h, pyOrElse, hf]

/-- Witness for C8: a raw-base64 reference resolving to an untagged
raster. -/
theorem C8_unknown_format_witness :
    image_info envFull rawB64Ref =
      .ok ⟨rasterB.width, rasterB.height, rasterB.mode, "(unknown)"⟩ :=
  C8_unknown_format envFull rawB64Ref rasterB rfl rfl

/-! ### C9 -/

/-- C9: whenever `detect_qr` returns a result — whether or not the QR engine
is available — the `count` field equals the length of the `data` list. -/
theorem C9_count_eq_length (env : Env) (ref : List Char) (res : QRResult)
    (h : detect_qr env ref = .ok res) : res.count = res.data.length := by
  unfold detect_qr at h
  rcases hc : env.cv2 with _ | det
  · rw [hc] at h
    cases h
    rfl
  · rw [hc] at h
    rcases hd : _decode_image_to_pil env ref with e | im
    · rw [hd] at h
      cases h
    · rw [hd] at h
      cases h
      rfl

/-- Witness for C9 with the QR engine unavailable. -/
theorem C9_count_eq_length_witness :
    (⟨0, [], some cv2MissingMsg⟩ : QRResult).count =
      (⟨0, [], some cv2MissingMsg⟩ : QRResult).data.length :=
  C9_count_eq_length envNoCaps picRef ⟨0, [], some cv2MissingMsg⟩ rfl

/-! ### C3 -/

/-- The capability-missing message of `ocr_text` is never empty. -/
theorem pytesseractMissingMsg_ne_empty (e : String) :
    pytesseractMissingMsg e ≠ "" := by
  intro h
  have hl := congrArg String.length h
  rw [pytesseractMissingMsg, String.length_append, String.length_append] at hl
  have h1 : 0 < String.length ("pytesseract is not installed or Tesseract binary missing: ") := by
    decide
  have h0 : String.length ("") = 0 := rfl
  rw [h0] at hl
  omega

/-- C3: a missing optional capability degrades to a descriptive successful
result: without the QR engine, `detect_qr` returns count 0, empty data and
an error string; without the OCR engine, `ocr_text` returns a non-empty
explanatory string — in both cases for every reference, without raising. -/
theorem C3_capability_degradation (env : Env) (ref : List Char) (lang : String) :
    (env.cv2 = none →
      detect_qr env ref = .ok ⟨0, [], some cv2MissingMsg⟩ ∧ cv2MissingMsg ≠ "") ∧
    (env.pytesseract = none →
      ocr_text env ref lang = .ok (pytesseractMissingMsg env.pytesseractErr) ∧
        pytesseractMissingMsg env.pytesseractErr ≠ "") := by
  refine ⟨fun h => ⟨?_, by decide⟩, fun h => ⟨?_, pytesseractMissingMsg_ne_empty _⟩⟩
  · simp [detect_qr, h]
  · simp [ocr_text, h]

/-- Witness for C3 at an environment missing both capabilities and a
garbage reference. -/
theorem C3_capability_degradation_witness :
    (detect_qr envNoCaps badB64Ref = .ok ⟨0, [], some cv2MissingMsg⟩ ∧
      cv2MissingMsg ≠ "") ∧
    (ocr_text envNoCaps badB64Ref ("eng") =
        .ok (pytesseractMissingMsg envNoCaps.pytesseractErr) ∧
      pytesseractMissingMsg envNoCaps.pytesseractErr ≠ "") :=
  ⟨(C3_capability_degradation envNoCaps badB64Ref ("eng")).1 rfl,
   (C3_capability_degradation envNoCaps badB64Ref ("eng")).2 rfl⟩

/-! ### C2 -/

/-- Counterexample to C2 as stated: at an environment where the optional
engines are missing, the reference `"abcde"` cannot be resolved (it fails
with a base64 error), yet `detect_qr` and `ocr_text` return successful
results rather than failing with the decode error. -/
theorem C2_counterexample :
    _decode_image_to_pil envNoCaps badB64Ref = .error .binasciiError ∧
    (detect_qr envNoCaps badB64Ref).isOk = true ∧
    (ocr_text envNoCaps badB64Ref ("eng")).isOk = true :=
  ⟨rfl, rfl, rfl⟩

/-- C2 (amended): an unresolvable reference makes every tool fail with the
resolver's `ImageDecodeError`-class error — unconditionally for
`image_info`, `grayscale`, `resize` and `dominant_colors`, and for
`detect_qr` / `ocr_text` whenever their optional engine is available (when
it is missing, those two return their capability-missing result without
attempting resolution). -/
theorem C2_unresolvable_fails (env : Env) (ref : List Char) (e : PyErr)
    (h : _decode_image_to_pil env ref = .error e)
    (he : e.isImageDecodeError = true) :
    image_info env ref = .error e ∧
    grayscale env ref = .error e ∧
    (∀ mw mh, resize env ref mw mh = .error e) ∧
    (∀ n, dominant_colors env ref n = .error e) ∧
    (∀ det, env.cv2 = some det → detect_qr env ref = .error e) ∧
    (∀ tess lang, env.pytesseract = some tess → ocr_text env ref lang = .error e) := by
  refine ⟨?_, ?_, fun mw mh => ?_, fun n => ?_, fun det hdet => ?_,
    fun tess lang htess => ?_⟩
  · simp [image_info, h]
  · simp [grayscale, h]
  · simp [resize, h]
  · simp [dominant_colors, h]
  · simp [detect_qr, hdet, h]
  · simp [ocr_text, htess, h]

/-- Witness for the amended C2: the bad reference fails `image_info` and,
with the engines present, `detect_qr` and `ocr_text` too. -/
theorem C2_unresolvable_fails_witness :
    image_info envFull badB64Ref = .error .binasciiError ∧
    detect_qr envFull badB64Ref = .error .binasciiError ∧
    ocr_text envFull badB64Ref ("eng") = .error .binasciiError := by
  have h := C2_unresolvable_fails envFull badB64Ref .binasciiError rfl rfl
  exact ⟨h.1, h.2.2.2.2.1 detC rfl, h.2.2.2.2.2 ⟨fun _ _ => "recognized"⟩ ("eng") rfl⟩

/-! ### C7 -/

/-- Folding the append-if-new loop over a list extends the accumulator by an
order-preserving selection of the loop's input. -/
theorem foldl_insertUnique_append (l : List String) :
    ∀ acc, ∃ t, l.foldl insertUniqueNonempty acc = acc ++ t ∧ t.Sublist l := by
  induction l with
  | nil => exact fun acc => ⟨[], by simp⟩
  | cons s l ih =>
    intro acc
    by_cases h : s ≠ "" ∧ s ∉ acc
    · obtain ⟨t, ht, hs⟩ := ih (acc ++ [s])
      refine ⟨s :: t, ?_, hs.cons₂ s⟩
      simp [List.foldl_cons, insertUniqueNonempty, h, ht]
    · obtain ⟨t, ht, hs⟩ := ih acc
      exact ⟨t, by simp [List.foldl_cons, insertUniqueNonempty, h, ht], hs.cons s⟩

/-- The append-if-new loop keeps the accumulator duplicate-free and free of
empty strings. -/
theorem foldl_insertUnique_nodup (l : List String) :
    ∀ acc, acc.Nodup → (∀ s ∈ acc, s ≠ "") →
      (l.foldl insertUniqueNonempty acc).Nodup ∧
        ∀ s ∈ l.foldl insertUniqueNonempty acc, s ≠ "" := by
  induction l with
  | nil => exact fun acc h1 h2 => ⟨h1, h2⟩
  | cons s l ih =>
    intro acc h1 h2
    by_cases h : s ≠ "" ∧ s ∉ acc
    · have hnd : (acc ++ [s]).Nodup := by
        rw [List.nodup_append]
        refine ⟨h1, List.nodup_singleton s, ?_⟩
        intro a ha hb
        simp only [List.mem_singleton] at hb
        subst hb
        exact h.2 ha
      have hne : ∀ x ∈ acc ++ [s], x ≠ "" := by
        intro x hx
        rcases List.mem_append.mp hx with hx | hx
        · exact h2 x hx
        · simp only [List.mem_singleton] at hx
          subst hx
          exact h.1
      simpa [List.foldl_cons, insertUniqueNonempty, h] using ih (acc ++ [s]) hnd hne
    · simpa [List.foldl_cons, insertUniqueNonempty, h] using ih acc h1 h2

/-- The merged QR data list is duplicate-free, contains no empty strings,
and is an order-preserving selection of the single decode followed by the
multi decodes. -/
theorem qrMerge_props (single : String) (multi : List String) :
    (qrMerge single multi).Nodup ∧ (∀ s ∈ qrMerge single multi, s ≠ "") ∧
      (qrMerge single multi).Sublist (single :: multi) := by
  unfold qrMerge
  by_cases hs : single ≠ ""
  · rw [if_pos hs]
    obtain ⟨nd, ne⟩ := foldl_insertUnique_nodup multi [single] (List.nodup_singleton _)
      (by intro s h; simp only [List.mem_singleton] at h; subst h; exact hs)
    obtain ⟨t, ht, hsub⟩ := foldl_insertUnique_append multi [single]
    refine ⟨nd, ne, ?_⟩
    rw [ht, List.singleton_append]
    exact hsub.cons₂ single
  · rw [if_neg hs]
    obtain ⟨nd, ne⟩ := foldl_insertUnique_nodup multi [] List.nodup_nil (by simp)
    obtain ⟨t, ht, hsub⟩ := foldl_insertUnique_append multi []
    refine ⟨nd, ne, ?_⟩
    rw [ht, List.nil_append]
    exact hsub.cons single

/-- C7: with the QR engine present, `detect_qr` starts from the at-most-one
direct decode, then — exactly when the multi-symbol capability exists —
appends each multi decode that is non-empty and not yet present; the
resulting data list is duplicate-free, empty-free, and preserves first-seen
order (it is an order-preserving selection of the single decode followed by
the multi decodes). -/
theorem C7_qr_merge (env : Env) (det : CV2QRCodeDetector) (ref : List Char)
    (im : PILRaster) (hc : env.cv2 = some det)
    (hd : _decode_image_to_pil env ref = .ok im) :
    ∃ res : QRResult, detect_qr env ref = .ok res ∧ res.error = none ∧
      (∀ multi, det.detectAndDecodeMulti = some multi →
        res.data = qrMerge (det.detectAndDecode (im.convert ("RGB")))
          (multi (im.convert ("RGB")))) ∧
      (det.detectAndDecodeMulti = none →
        res.data = (if det.detectAndDecode (im.convert ("RGB")) ≠ ""
          then [det.detectAndDecode (im.convert ("RGB"))] else [])) ∧
      res.data.Nodup ∧ (∀ s ∈ res.data, s ≠ "") ∧
      res.data.Sublist (det.detectAndDecode (im.convert ("RGB")) ::
        (match det.detectAndDecodeMulti with
         | some multi => multi (im.convert ("RGB"))
         | none => [])) := by
  rcases hm : det.detectAndDecodeMulti with _ | multi
  · refine ⟨⟨(if det.detectAndDecode (im.convert ("RGB")) ≠ ""
        then [det.detectAndDecode (im.convert ("RGB"))] else []).length,
      if det.detectAndDecode (im.convert ("RGB")) ≠ ""
        then [det.detectAndDecode (im.convert ("RGB"))] else [], none⟩,
      ?_, rfl, ?_, fun _ => rfl, ?_, ?_, ?_⟩
    · simp [detect_qr, hc, hd, hm]
    · intro m hmm
      exact Option.noConfusion hmm
    · by_cases h1 : det.detectAndDecode (im.convert ("RGB")) ≠ "" <;>
        simp [h1]
    · by_cases h1 : det.detectAndDecode (im.convert ("RGB")) ≠ "" <;>
        simp [h1]
    · by_cases h1 : det.detectAndDecode (im.convert ("RGB")) ≠ ""
      · rw [if_pos h1]
      · rw [if_neg h1]
        exact List.nil_sublist _
  · obtain ⟨nd, ne, hsub⟩ := qrMerge_props (det.detectAndDecode (im.convert ("RGB")))
      (multi (im.convert ("RGB")))
    refine ⟨⟨(qrMerge (det.detectAndDecode (im.convert ("RGB")))
        (multi (im.convert ("RGB")))).length,
      qrMerge (det.detectAndDecode (im.convert ("RGB")))
        (multi (im.convert ("RGB"))), none⟩, ?_, rfl, ?_, ?_, nd, ne, ?_⟩
    · simp [detect_qr, hc, hd, hm]
    · intro m hmm
      cases hmm
      rfl
    · intro hmm
      exact Option.noConfusion hmm
    · exact hsub

/-- Witness for C7: a detector whose multi decode contributes one duplicate,
one empty string and one new payload. -/
theorem C7_qr_merge_witness :
    detect_qr envFull picRef = .ok ⟨2, ["HELLO", "WORLD"], none⟩ := by
  obtain ⟨res, h1, -, h3, -, -, -, -⟩ :=
    C7_qr_merge envFull detC picRef rasterA rfl rfl
  have hres : Except.ok (ε := PyErr) (⟨2, ["HELLO", "WORLD"], none⟩ : QRResult) =
      .ok res := by
    rw [← h1]
    rfl
  rw [h1, Except.ok.inj hres]

/-! ### C6 -/

/-- Hex formatting of an 8-bit RGB triple matches `#[0-9a-f]{6}`. -/
theorem toHexColor_isHex (r g b : Nat) (hr : r < 256) (hg : g < 256)
    (hb : b < 256) : isHexColor (toHexColor r g b) = true := by
  have d1 : ∀ m, m < 16 → isHexColorChar (hexDigit m) = true := by decide
  have e1 := d1 (r / 16) (by omega)
  have e2 := d1 (r % 16) (by omega)
  have e3 := d1 (g / 16) (by omega)
  have e4 := d1 (g % 16) (by omega)
  have e5 := d1 (b / 16) (by omega)
  have e6 := d1 (b % 16) (by omega)
  simp [isHexColor, toHexColor, hexByte, e1, e2, e3, e4, e5, e6]

/-- When every index in the worklist has a full RGB triple in the palette
and the palette is 8-bit, the hex-formatting loop succeeds and yields one
well-formed `#rrggbb` string per entry. -/
theorem hexesOf_ok (palette : List Nat) :
    ∀ l : List (Nat × Nat), (∀ p ∈ l, p.2 * 3 + 3 ≤ palette.length) →
      (∀ v ∈ palette, v < 256) →
      ∃ hs, hexesOf palette l = .ok hs ∧ hs.length = l.length ∧
        ∀ s ∈ hs, isHexColor s = true := by
  intro l
  induction l with
  | nil => exact fun _ _ => ⟨[], rfl, rfl, by simp⟩
  | cons t ts ih =>
    intro hidx hpal
    have hbound := hidx t (List.mem_cons_self t ts)
    have hlen : ((palette.drop (t.2 * 3)).take 3).length = 3 := by
      rw [List.length_take, List.length_drop]
      omega
    obtain ⟨r, g, b, hrgb⟩ := List.length_eq_three.mp hlen
    have hmem : ∀ v, v ∈ [r, g, b] → v ∈ palette := by
      intro v hv
      have : v ∈ (palette.drop (t.2 * 3)).take 3 := by rw [hrgb]; exact hv
      exact List.mem_of_mem_drop (List.mem_of_mem_take this)
    have hslice : paletteRGB palette t.2 = some (r, g, b) := by
      unfold paletteRGB
      rw [hrgb]
    obtain ⟨hs, hhs, hlens, hhex⟩ :=
      ih (fun p hp => hidx p (List.mem_cons_of_mem _ hp)) hpal
    refine ⟨toHexColor r g b :: hs, ?_, by simp [hlens], ?_⟩
    · simp only [hexesOf, hslice, hhs]
      rfl
    · intro s hsmem
      rcases List.mem_cons.mp hsmem with rfl | hsm
      · exact toHexColor_isHex r g b (hpal r (hmem r (by simp)))
          (hpal g (hmem g (by simp))) (hpal b (hmem b (by simp)))
      · exact hhex s hsm

/-- The truncated descending sort is sorted by descending count. -/
theorem topUsed_sorted (used : List (Nat × Nat)) (k : Nat) :
    (topUsed used k).Pairwise freqGE := by
  exact List.Pairwise.sublist (List.take_sublist k _)
    (List.sorted_insertionSort freqGE used)

/-- Every entry of the truncated sort comes from the original usage list. -/
theorem topUsed_subset (used : List (Nat × Nat)) (k : Nat) :
    ∀ p ∈ topUsed used k, p ∈ used := by
  intro p hp
  exact (List.perm_insertionSort freqGE used).subset (List.mem_of_mem_take hp)

/-- The truncated sort has at most `k` entries. -/
theorem topUsed_len (used : List (Nat × Nat)) (k : Nat) :
    (topUsed used k).length ≤ k := by
  simp only [topUsed, List.length_take]
  omega

/-- C6: `dominant_colors` forces the image to RGB, median-cut quantizes to
at most `max 1 N` colors, and — given the quantizer's contract that used
indices address full triples of an 8-bit palette — returns at most
`max 1 N` hex strings, each matching `#[0-9a-f]{6}`, formatted from the
used palette entries sorted by descending pixel count (fewer entries when
the quantized palette has fewer used colors). -/
theorem C6_dominant_colors (env : Env) (ref : List Char) (n : Int)
    (im : PILRaster) (used : List (Nat × Nat)) (palette : List Nat)
    (hd : _decode_image_to_pil env ref = .ok im)
    (hq : env.quantize (im.convert ("RGB")) ((max 1 n).toNat) .mediancut =
      ⟨some palette, some used⟩)
    (hpal : ∀ v ∈ palette, v < 256)
    (hidx : ∀ p ∈ used, p.2 * 3 + 3 ≤ palette.length) :
    ∃ hexes, dominant_colors env ref n = .ok ⟨hexes⟩ ∧
      hexesOf palette (topUsed used ((max 1 n).toNat)) = .ok hexes ∧
      hexes.length ≤ (max 1 n).toNat ∧
      (∀ s ∈ hexes, isHexColor s = true) ∧
      (topUsed used ((max 1 n).toNat)).Pairwise freqGE := by
  obtain ⟨hs, hhs, hlens, hhex⟩ := hexesOf_ok palette (topUsed used ((max 1 n).toNat))
    (fun p hp => hidx p (topUsed_subset used _ p hp)) hpal
  have hlen : hs.length ≤ (max 1 n).toNat := hlens ▸ topUsed_len used _
  refine ⟨hs, ?_, hhs, hlen, hhex, topUsed_sorted used _⟩
  by_cases hu : used = []
  · subst hu
    have htop : topUsed [] ((max 1 n).toNat) = [] := by
      simp [topUsed, List.insertionSort]
    rw [htop] at hhs
    have hnil : hs = [] := Except.ok.inj hhs.symm
    subst hnil
    simp [dominant_colors, hd, hq]
  · have hpne : palette ≠ [] := by
      obtain ⟨p, hp⟩ := List.exists_mem_of_ne_nil used hu
      have := hidx p hp
      intro hcon
      rw [hcon] at this
      simp at this
    simp [dominant_colors, hd, hq, hu, hpne, hhs]

/-- Witness for C6 at a two-color quantized palette: counts 9 and 5 sort to
`#c86400` (entry 1) before `#0a141e` (entry 0). -/
theorem C6_dominant_colors_witness :
    dominant_colors envFull picRef 5 =
      .ok ⟨[['#','c','8','6','4','0','0'], ['#','0','a','1','4','1','e']]⟩ := by
  obtain ⟨hexes, h1, h2, -, -, -⟩ :=
    C6_dominant_colors envFull picRef 5 rasterA usedC palC rfl rfl
      (by decide) (by decide)
  have hx : Except.ok (ε := PyErr)
      [['#','c','8','6','4','0','0'], ['#','0','a','1','4','1','e']] = .ok hexes := by
    rw [← h2]
    rfl
  rw [h1, ← Except.ok.inj hx]

/-! ### C4 -/

/-- Every base64 alphabet character survives the decoder's filter and is
ASCII. -/
theorem b64Chars_props : ∀ c ∈ b64Chars, keepB64 c = true ∧ c.toNat < 128 := by
  decide

/-- Alphabet characters for in-range values. -/
theorem b64EncChar_mem : ∀ v : Nat, v < 64 → b64EncChar v ∈ b64Chars := by
  decide

/-- Decoding inverts the alphabet table on in-range values. -/
theorem b64Val_encChar : ∀ v : Nat, v < 64 → b64Val (b64EncChar v) = some v := by
  decide

/-- Alphabet characters are never the padding character. -/
theorem b64EncChar_ne_pad : ∀ v : Nat, v < 64 → (b64EncChar v == '=') = false := by
  decide

/-- Every character produced by the encoder is an alphabet character or
padding. -/
theorem encode_mem : ∀ B : List Nat, (∀ b ∈ B, b < 256) →
    ∀ c ∈ pyB64Encode B, c ∈ b64Chars ∨ c = '=' := by
  intro B
  induction B using pyB64Encode.induct with
  | case1 =>
    intro _ c hc
    simp [pyB64Encode] at hc
  | case2 b1 =>
    intro h c hc
    have hb : b1 < 256 := h b1 (by simp)
    simp only [pyB64Encode, List.mem_cons, List.not_mem_nil, or_false] at hc
    rcases hc with rfl | rfl | rfl | rfl
    · exact Or.inl (b64EncChar_mem _ (by omega))
    · exact Or.inl (b64EncChar_mem _ (by omega))
    · exact Or.inr rfl
    · exact Or.inr rfl
  | case3 b1 b2 =>
    intro h c hc
    have hb1 : b1 < 256 := h b1 (by simp)
    have hb2 : b2 < 256 := h b2 (by simp)
    simp only [pyB64Encode, List.mem_cons, List.not_mem_nil, or_false] at hc
    rcases hc with rfl | rfl | rfl | rfl
    · exact Or.inl (b64EncChar_mem _ (by omega))
    · exact Or.inl (b64EncChar_mem _ (by omega))
    · exact Or.inl (b64EncChar_mem _ (by omega))
    · exact Or.inr rfl
  | case4 b1 b2 b3 rest ih =>
    intro h c hc
    have hb1 : b1 < 256 := h b1 (by simp)
    have hb2 : b2 < 256 := h b2 (by simp)
    have hb3 : b3 < 256 := h b3 (by simp)
    simp only [pyB64Encode, List.mem_cons] at hc
    rcases hc with rfl | rfl | rfl | rfl | hc
    · exact Or.inl (b64EncChar_mem _ (by omega))
    · exact Or.inl (b64EncChar_mem _ (by omega))
    · exact Or.inl (b64EncChar_mem _ (by omega))
    · exact Or.inl (b64EncChar_mem _ (by omega))
    · exact ih (fun b hb => h b (by simp [hb])) c hc

/-- Quad decoding of a full three-byte block. -/
theorem b64DecodeQuads_cons3 (x y z : Nat) (rest : List Char)
    (hx : x < 256) (hy : y < 256) (hz : z < 256) :
    b64DecodeQuads (b64EncChar (x / 4) :: b64EncChar (x % 4 * 16 + y / 16) ::
      b64EncChar (y % 16 * 4 + z / 64) :: b64EncChar (z % 64) :: rest) =
    (b64DecodeQuads rest).map (fun bs => x :: y :: z :: bs) := by
  have h1 := b64Val_encChar (x / 4) (by omega)
  have h2 := b64Val_encChar (x % 4 * 16 + y / 16) (by omega)
  have h3 := b64Val_encChar (y % 16 * 4 + z / 64) (by omega)
  have h4 := b64Val_encChar (z % 64) (by omega)
  have hn3 := b64EncChar_ne_pad (y % 16 * 4 + z / 64) (by omega)
  have hn4 := b64EncChar_ne_pad (z % 64) (by omega)
  have e1 : x / 4 * 4 + (x % 4 * 16 + y / 16) / 16 = x := by omega
  have e2 : (x % 4 * 16 + y / 16) % 16 * 16 + (y % 16 * 4 + z / 64) / 4 = y := by
    omega
  have e3 : (y % 16 * 4 + z / 64) % 4 * 64 + z % 64 = z := by omega
  simp only [b64DecodeQuads, h1, h2, h3, h4, hn3, hn4, Bool.false_eq_true,
    if_false, e1, e2, e3]

/-- Quad decoding of a trailing one-byte block. -/
theorem b64DecodeQuads_tail1 (x : Nat) (hx : x < 256) :
    b64DecodeQuads [b64EncChar (x / 4), b64EncChar (x % 4 * 16), '=', '='] =
      .ok [x] := by
  have h1 := b64Val_encChar (x / 4) (by omega)
  have h2 := b64Val_encChar (x % 4 * 16) (by omega)
  have e1 : x / 4 * 4 + x % 4 * 16 / 16 = x := by omega
  simp only [b64DecodeQuads, h1, h2, beq_self_eq_true, if_true, e1]
  rfl

/-- Quad decoding of a trailing two-byte block. -/
theorem b64DecodeQuads_tail2 (x y : Nat) (hx : x < 256) (hy : y < 256) :
    b64DecodeQuads [b64EncChar (x / 4), b64EncChar (x % 4 * 16 + y / 16),
      b64EncChar (y % 16 * 4), '='] = .ok [x, y] := by
  have h1 := b64Val_encChar (x / 4) (by omega)
  have h2 := b64Val_encChar (x % 4 * 16 + y / 16) (by omega)
  have h3 := b64Val_encChar (y % 16 * 4) (by omega)
  have hn3 := b64EncChar_ne_pad (y % 16 * 4) (by omega)
  have e1 : x / 4 * 4 + (x % 4 * 16 + y / 16) / 16 = x := by omega
  have e2 : (x % 4 * 16 + y / 16) % 16 * 16 + y % 16 * 4 / 4 = y := by omega
  simp only [b64DecodeQuads, h1, h2, h3, hn3, Bool.false_eq_true, if_false,
    beq_self_eq_true, if_true, e1, e2]
  rfl

/-- Quad decoding inverts the encoder on byte lists. -/
theorem b64DecodeQuads_encode : ∀ B : List Nat, (∀ b ∈ B, b < 256) →
    b64DecodeQuads (pyB64Encode B) = .ok B := by
  intro B
  induction B using pyB64Encode.induct with
  | case1 => intro _; rfl
  | case2 b1 =>
    intro h
    simp only [pyB64Encode]
    exact b64DecodeQuads_tail1 b1 (h b1 (by simp))
  | case3 b1 b2 =>
    intro h
    simp only [pyB64Encode]
    exact b64DecodeQuads_tail2 b1 b2 (h b1 (by simp)) (h b2 (by simp))
  | case4 b1 b2 b3 rest ih =>
    intro h
    simp only [pyB64Encode]
    rw [b64DecodeQuads_cons3 b1 b2 b3 _ (h b1 (by simp)) (h b2 (by simp))
      (h b3 (by simp))]
    rw [ih (fun b hb => h b (by simp [hb]))]
    rfl

/-- Python's `b64decode` inverts `b64encode` on byte lists: the encoding is
pure ASCII, survives the character filter unchanged, and quad decoding
recovers the bytes. -/
theorem pyB64Decode_encode (B : List Nat) (hB : ∀ b ∈ B, b < 256) :
    pyB64Decode (pyB64Encode B) = .ok B := by
  have hmem := encode_mem B hB
  have hascii : ((pyB64Encode B).all fun c => c.toNat < 128) = true := by
    rw [List.all_eq_true]
    intro c hc
    rcases hmem c hc with h | h
    · simpa using (b64Chars_props c h).2
    · subst h
      decide
  have hkeep : (pyB64Encode B).filter keepB64 = pyB64Encode B := by
    rw [List.filter_eq_self]
    intro c hc
    rcases hmem c hc with h | h
    · exact (b64Chars_props c h).1
    · subst h
      decide
  rw [pyB64Decode, hascii, if_pos rfl, hkeep]
  exact b64DecodeQuads_encode B hB

/-- An encoded byte list never starts with `"data:"`: its characters are
alphabet characters or padding, and `':'` is neither. -/
theorem encode_not_data (B : List Nat) (hB : ∀ b ∈ B, b < 256) :
    dataColon.isPrefixOf (pyB64Encode B) = false := by
  by_contra hcon
  have h' : dataColon.isPrefixOf (pyB64Encode B) = true := by
    revert hcon
    cases dataColon.isPrefixOf (pyB64Encode B) <;> simp
  obtain ⟨t, ht⟩ := List.isPrefixOf_iff_prefix.mp h'
  have hcol : ':' ∈ pyB64Encode B := by
    rw [← ht]
    simp [dataColon]
  rcases encode_mem B hB ':' hcol with h | h
  · exact absurd h (by decide)
  · exact absurd h (by decide)

/-- The data URI `"data:image/png;base64," + base64(B)`. -/
def pngDataURI (B : List Nat) : List Char :=
  ['d','a','t','a',':','i','m','a','g','e','/','p','n','g',';',
   'b','a','s','e','6','4',','] ++ pyB64Encode B

/-- C4: for a byte buffer `B` the codec accepts, resolving the raw base64
encoding of `B` and resolving `"data:image/png;base64," + base64(B)` (when
neither string names an existing filesystem entry) produce one and the same
raster — in particular identical width, height and mode. -/
theorem C4_base64_datauri_agree (env : Env) (B : List Nat) (r : PILRaster)
    (hB : ∀ b ∈ B, b < 256)
    (h1 : env.pathExists (pyB64Encode B) = false)
    (h2 : env.pathExists (pngDataURI B) = false)
    (hr : env.openBytes B = some r) :
    _decode_image_to_pil env (pyB64Encode B) = .ok r ∧
    _decode_image_to_pil env (pngDataURI B) = .ok r := by
  constructor
  · simp [_decode_image_to_pil, h1, encode_not_data B hB,
      pyB64Decode_encode B hB, hr]
  · have hpre : dataColon.isPrefixOf (pngDataURI B) = true := rfl
    have hsplit : splitFirstComma (pngDataURI B) =
        some (['d','a','t','a',':','i','m','a','g','e','/','p','n','g',';',
          'b','a','s','e','6','4'], pyB64Encode B) := rfl
    simp [_decode_image_to_pil, h2, hpre, hsplit, pyB64Decode_encode B hB, hr]

/-- An environment whose codec recognizes exactly the byte buffer
`[77, 78]`. -/
def envB64 : Env where
  pathExists := fun _ => false
  openPath := fun _ => none
  openBytes := fun bs => if bs == [77, 78] then some rasterA else none
  quantize := fun _ _ _ => ⟨none, none⟩
  cv2 := none
  pytesseract := none
  pytesseractErr := ""

/-- Witness for C4 at the buffer `[77, 78]`. -/
theorem C4_base64_datauri_agree_witness :
    _decode_image_to_pil envB64 (pyB64Encode [77, 78]) = .ok rasterA ∧
    _decode_image_to_pil envB64 (pngDataURI [77, 78]) = .ok rasterA :=
  C4_base64_datauri_agree envB64 [77, 78] rasterA (by decide) rfl rfl rfl

/-! ### C5 -/

/-- `round_aspect` never exceeds an integer bound of at least 1 that bounds
its input. -/
theorem roundAspect_le (t : ℚ) (key : ℤ → ℚ) (m : Nat) (hm : 1 ≤ m)
    (ht : t ≤ (m : ℚ)) : roundAspect t key ≤ m := by
  unfold roundAspect
  have hc : ⌈t⌉ ≤ (m : ℤ) := by
    rw [Int.ceil_le]
    exact_mod_cast ht
  have hf : ⌊t⌋ ≤ ⌈t⌉ := Int.floor_le_ceil t
  have hm' : (1 : ℤ) ≤ (m : ℤ) := by exact_mod_cast hm
  rcases le_or_lt (key ⌊t⌋) (key ⌈t⌉) with hk | hk
  · rw [if_pos hk]
    omega
  · rw [if_neg (not_le.mpr hk)]
    omega

/-- `round_aspect` stays within one unit of its nonnegative input. -/
theorem roundAspect_near (t : ℚ) (key : ℤ → ℚ) (ht : 0 ≤ t) :
    |(roundAspect t key : ℚ) - t| ≤ 1 := by
  unfold roundAspect
  have hf1 : ((⌊t⌋ : ℤ) : ℚ) ≤ t := Int.floor_le t
  have hf2 : t - 1 < ((⌊t⌋ : ℤ) : ℚ) := Int.sub_one_lt_floor t
  have hc1 : t ≤ ((⌈t⌉ : ℤ) : ℚ) := Int.le_ceil t
  have hc2 : ((⌈t⌉ : ℤ) : ℚ) < t + 1 := Int.ceil_lt_add_one t
  set p : ℤ := if key ⌊t⌋ ≤ key ⌈t⌉ then ⌊t⌋ else ⌈t⌉ with hp
  have hpb : (((p : ℤ) : ℚ) ≤ t ∧ t - 1 < ((p : ℤ) : ℚ)) ∨
      (t ≤ ((p : ℤ) : ℚ) ∧ ((p : ℤ) : ℚ) < t + 1) := by
    rw [hp]
    split
    · exact Or.inl ⟨hf1, hf2⟩
    · exact Or.inr ⟨hc1, hc2⟩
  have hmax : (0 : ℤ) ≤ max p 1 := le_trans (by norm_num) (le_max_right p 1)
  have hcast : (((max p 1).toNat : ℕ) : ℚ) = ((max p 1 : ℤ) : ℚ) := by
    exact_mod_cast congrArg (Int.cast : ℤ → ℚ) (Int.toNat_of_nonneg hmax)
  rw [hcast]
  rcases le_or_lt 1 p with h1 | h1
  · rw [max_eq_left h1]
    rw [abs_le]
    rcases hpb with ⟨ha, hb⟩ | ⟨ha, hb⟩ <;> constructor <;> linarith
  · have hp0 : p ≤ 1 := h1.le
    rw [max_eq_right hp0]
    rw [abs_le]
    have hp0' : ((p : ℤ) : ℚ) ≤ 1 := by exact_mod_cast hp0
    rcases hpb with ⟨ha, hb⟩ | ⟨ha, hb⟩ <;> constructor <;>
      simp only [Int.cast_one] <;> linarith

/-- The size Pillow's thumbnail computation returns: it fits the requested
box, never exceeds the original size, is unchanged when the original
already fits, and keeps the aspect ratio to within one pixel on the
adjusted side. -/
theorem thumbnailSize_spec (w h x y w' h' : Nat) (hw : 1 ≤ w) (hh : 1 ≤ h)
    (heq : thumbnailSize w h x y = some (w', h')) :
    w' ≤ x ∧ h' ≤ y ∧ w' ≤ w ∧ h' ≤ h ∧
    (w ≤ x → h ≤ y → w' = w ∧ h' = h) ∧
    (|(w' : ℤ) * (h : ℤ) - (h' : ℤ) * (w : ℤ)| ≤ (h : ℤ) ∨
     |(w' : ℤ) * (h : ℤ) - (h' : ℤ) * (w : ℤ)| ≤ (w : ℤ)) := by
  have hhq : (0 : ℚ) < (h : ℚ) := by exact_mod_cast hh
  have hwq : (0 : ℚ) < (w : ℚ) := by exact_mod_cast hw
  simp only [thumbnailSize] at heq
  split_ifs at heq with hfit hh0 hy0 hcond hasp
  · -- the image already fits: unchanged
    simp only [Option.some.injEq, Prod.mk.injEq] at heq
    obtain ⟨rfl, rfl⟩ := heq
    refine ⟨hfit.1, hfit.2, le_refl _, le_refl _, fun _ _ => ⟨rfl, rfl⟩,
      Or.inl ?_⟩
    rw [mul_comm]
    simp
  · -- landscape branch: height kept at y, width rounded from y * aspect
    have hy1 : 1 ≤ y := by omega
    have hyq : (0 : ℚ) < (y : ℚ) := by exact_mod_cast hy1
    simp only [Option.some.injEq, Prod.mk.injEq] at heq
    obtain ⟨rfl, rfl⟩ := heq
    have hxy : (w : ℚ) * (y : ℚ) ≤ (x : ℚ) * (h : ℚ) :=
      (div_le_div_iff₀ hhq hyq).mp hcond
    have hyh : y ≤ h := by
      by_contra hyh
      push_neg at hyh
      have hhy : (h : ℚ) < (y : ℚ) := by exact_mod_cast hyh
      have hwy : (w : ℚ) * (h : ℚ) < (w : ℚ) * (y : ℚ) := by nlinarith
      have hwx : (w : ℚ) < (x : ℚ) := by
        have hlt : (w : ℚ) * (h : ℚ) < (x : ℚ) * (h : ℚ) := by linarith
        exact (mul_lt_mul_right hhq).mp hlt
      have hwx' : w ≤ x := by exact_mod_cast hwx.le
      exact hfit ⟨hwx', hyh.le⟩
    have hx1 : 1 ≤ x := by
      by_contra hxcon
      have hx0 : x = 0 := by omega
      subst hx0
      have : (0 : ℚ) < (w : ℚ) / (h : ℚ) := div_pos hwq hhq
      simp only [Nat.cast_zero, zero_div] at hcond
      linarith
    have httx : (y : ℚ) * ((w : ℚ) / (h : ℚ)) ≤ (x : ℚ) := by
      rw [mul_div_assoc', div_le_iff₀ hhq]
      nlinarith
    have httw : (y : ℚ) * ((w : ℚ) / (h : ℚ)) ≤ (w : ℚ) := by
      have hyhq : (y : ℚ) ≤ (h : ℚ) := by exact_mod_cast hyh
      rw [mul_div_assoc', div_le_iff₀ hhq]
      nlinarith
    have ht0 : (0 : ℚ) ≤ (y : ℚ) * ((w : ℚ) / (h : ℚ)) := by positivity
    refine ⟨roundAspect_le _ _ x hx1 httx, le_refl _,
      roundAspect_le _ _ w hw httw, hyh, fun hwx hhy => absurd ⟨hwx, hhy⟩ hfit,
      Or.inl ?_⟩
    have hnear := roundAspect_near ((y : ℚ) * ((w : ℚ) / (h : ℚ)))
      (fun n => |(w : ℚ) / (h : ℚ) - (n : ℚ) / (y : ℚ)|) ht0
    set R : Nat := roundAspect ((y : ℚ) * ((w : ℚ) / (h : ℚ)))
      (fun n => |(w : ℚ) / (h : ℚ) - (n : ℚ) / (y : ℚ)|) with hR
    have hmul : ((y : ℚ) * ((w : ℚ) / (h : ℚ))) * (h : ℚ) = (y : ℚ) * (w : ℚ) := by
      field_simp
    have hsplit : (R : ℚ) * (h : ℚ) - (y : ℚ) * (w : ℚ) =
        ((R : ℚ) - (y : ℚ) * ((w : ℚ) / (h : ℚ))) * (h : ℚ) := by
      rw [sub_mul, hmul]
    have habs : |(R : ℚ) * (h : ℚ) - (y : ℚ) * (w : ℚ)| ≤ (h : ℚ) := by
      rw [hsplit, abs_mul, abs_of_nonneg hhq.le]
      calc |(R : ℚ) - (y : ℚ) * ((w : ℚ) / (h : ℚ))| * (h : ℚ)
          ≤ 1 * (h : ℚ) := mul_le_mul_of_nonneg_right hnear hhq.le
        _ = (h : ℚ) := one_mul _
    exact_mod_cast habs
  · -- portrait branch: width kept at x, height rounded from x / aspect
    have hy1 : 1 ≤ y := by omega
    have hyq : (0 : ℚ) < (y : ℚ) := by exact_mod_cast hy1
    simp only [Option.some.injEq, Prod.mk.injEq] at heq
    obtain ⟨rfl, rfl⟩ := heq
    push_neg at hcond
    have hyx : (x : ℚ) * (h : ℚ) < (w : ℚ) * (y : ℚ) :=
      (div_lt_div_iff₀ hyq hhq).mp hcond
    have hxw : x ≤ w := by
      by_contra hxw
      push_neg at hxw
      have hwxq : (w : ℚ) < (x : ℚ) := by exact_mod_cast hxw
      have hx0q : (0 : ℚ) < (x : ℚ) := by linarith
      have hlt : (x : ℚ) * (h : ℚ) < (x : ℚ) * (y : ℚ) := by nlinarith
      have hhy : (h : ℚ) < (y : ℚ) := (mul_lt_mul_left hx0q).mp hlt
      have hhy' : h ≤ y := by exact_mod_cast hhy.le
      exact hfit ⟨hxw.le, hhy'⟩
    have ht2 : (x : ℚ) / ((w : ℚ) / (h : ℚ)) = (x : ℚ) * (h : ℚ) / (w : ℚ) := by
      rw [div_div_eq_mul_div]
    have ht2h : (x : ℚ) / ((w : ℚ) / (h : ℚ)) ≤ (h : ℚ) := by
      rw [ht2, div_le_iff₀ hwq]
      have hxwq : (x : ℚ) ≤ (w : ℚ) := by exact_mod_cast hxw
      nlinarith
    have ht2y : (x : ℚ) / ((w : ℚ) / (h : ℚ)) ≤ (y : ℚ) := by
      rw [ht2, div_le_iff₀ hwq]
      nlinarith
    have ht20 : (0 : ℚ) ≤ (x : ℚ) / ((w : ℚ) / (h : ℚ)) := by positivity
    refine ⟨le_refl _, roundAspect_le _ _ y hy1 ht2y,
      hxw, roundAspect_le _ _ h hh ht2h, fun hwx hhy => absurd ⟨hwx, hhy⟩ hfit,
      Or.inr ?_⟩
    have hnear := roundAspect_near ((x : ℚ) / ((w : ℚ) / (h : ℚ)))
      (fun n => if n = 0 then 0 else |(w : ℚ) / (h : ℚ) - (x : ℚ) / (n : ℚ)|) ht20
    set R : Nat := roundAspect ((x : ℚ) / ((w : ℚ) / (h : ℚ)))
      (fun n => if n = 0 then 0 else |(w : ℚ) / (h : ℚ) - (x : ℚ) / (n : ℚ)|)
      with hR
    have hmul : ((x : ℚ) / ((w : ℚ) / (h : ℚ))) * (w : ℚ) = (x : ℚ) * (h : ℚ) := by
      rw [ht2]
      field_simp
    have hsplit : (x : ℚ) * (h : ℚ) - (R : ℚ) * (w : ℚ) =
        -(((R : ℚ) - (x : ℚ) / ((w : ℚ) / (h : ℚ))) * (w : ℚ)) := by
      rw [sub_mul, hmul]
      ring
    have habs : |(x : ℚ) * (h : ℚ) - (R : ℚ) * (w : ℚ)| ≤ (w : ℚ) := by
      rw [hsplit, abs_neg, abs_mul, abs_of_nonneg hwq.le]
      calc |(R : ℚ) - (x : ℚ) / ((w : ℚ) / (h : ℚ))| * (w : ℚ)
          ≤ 1 * (w : ℚ) := mul_le_mul_of_nonneg_right hnear hwq.le
        _ = (w : ℚ) := one_mul _
    exact_mod_cast habs

/-- C5: for a resolvable image of positive size and any bounds, a
successfully returned `resize` result is always PNG-tagged, never exceeds
`max_w × max_h`, never upscales beyond the original size, is unchanged when
the original already fits the box, and keeps the original aspect ratio to
within one pixel of rounding on the adjusted side. -/
theorem C5_resize_bounds (env : Env) (ref : List Char) (max_w max_h : Nat)
    (im : PILRaster) (out : MCPImage)
    (hd : _decode_image_to_pil env ref = .ok im)
    (hw : 1 ≤ im.width) (hh : 1 ≤ im.height)
    (ho : resize env ref max_w max_h = .ok out) :
    out.format = "png" ∧
    out.raster.width ≤ max_w ∧ out.raster.height ≤ max_h ∧
    out.raster.width ≤ im.width ∧ out.raster.height ≤ im.height ∧
    (im.width ≤ max_w → im.height ≤ max_h →
      out.raster.width = im.width ∧ out.raster.height = im.height) ∧
    (|(out.raster.width : ℤ) * (im.height : ℤ) -
        (out.raster.height : ℤ) * (im.width : ℤ)| ≤ (im.height : ℤ) ∨
     |(out.raster.width : ℤ) * (im.height : ℤ) -
        (out.raster.height : ℤ) * (im.width : ℤ)| ≤ (im.width : ℤ)) := by
  simp only [resize, hd] at ho
  rcases ht : thumbnailSize im.width im.height max_w max_h with _ | wh
  · rw [ht] at ho
    exact Except.noConfusion ho
  · rw [ht] at ho
    cases ho
    obtain ⟨h1, h2, h3, h4, h5, h6⟩ :=
      thumbnailSize_spec im.width im.height max_w max_h wh.1 wh.2 hw hh
        (by rw [ht])
    exact ⟨rfl, h1, h2, h3, h4, h5, h6⟩

/-- The image `resize` returns for an 8×6 original in a 4×4 box. -/
def outC5 : MCPImage := ⟨⟨4, 3, "RGB", some ("PNG")⟩, "png"⟩

/-- Witness for C5: the 8×6 `rasterA` resized into a 4×4 box becomes 4×3
PNG. -/
theorem C5_resize_bounds_witness :
    resize envFull picRef 4 4 = .ok outC5 ∧
    outC5.format = "png" ∧ outC5.raster.width ≤ 4 ∧ outC5.raster.height ≤ 4 ∧
    outC5.raster.width ≤ rasterA.width ∧
    outC5.raster.height ≤ rasterA.height := by
  have hts : thumbnailSize rasterA.width rasterA.height 4 4 = some (4, 3) := by
    show thumbnailSize 8 6 4 4 = some (4, 3)
    rw [thumbnailSize]
    norm_num
    rw [roundAspect]
    norm_num
    rfl
  have hres : resize envFull picRef 4 4 = .ok outC5 := by
    simp only [resize, show _decode_image_to_pil envFull picRef = .ok rasterA
      from rfl, hts]
    rfl
  have h := C5_resize_bounds envFull picRef 4 4 rasterA outC5 rfl (by decide)
    (by decide) hres
  exact ⟨hres, h.1, h.2.1, h.2.2.1, h.2.2.2.1, h.2.2.2.2.1⟩

end MCPImageServer
